import Mathlib

/-!
# Verification of the gitex static analyzer and symbol slicer

This file gives a shallow embedding of the two core subsystems of the
`gitex` repository:

* `gitex/dependency_mapper.py` — the namespace builder, the per-file static
  extractor, and the relationship resolver (`DependencyMapper`);
* `gitex/slicer.py` — the symbol slice resolver
  (`resolve_slice_dependencies`).

Files are modelled by their root-relative path components
(`List String`, last component carrying the `.py` suffix) together with an
optional parsed syntax tree; a missing tree stands for a file that is
unreadable or unparsable.  Python dictionaries are modelled as ordered
association lists (insertion order preserved, key update in place), and
Python sets as lists whose membership is the only observable.
-/

namespace Gitex

/-! ## Python string primitives

The source manipulates strings with `str.endswith`, `str.split('.')`,
`'.'.join`, `str.strip('.')` and `Path.with_suffix('')`.  These are
re-implemented on explicit character lists so that every definition in this
file evaluates by kernel reduction. -/

/-- Python `s.endswith(suffix)`. -/
def pyEndsWith (s suffix : String) : Bool :=
  suffix.toList.isSuffixOf s.toList

/-- Worker for `pySplitDot`: split a character list at every `'.'`,
keeping empty chunks, exactly like Python `str.split('.')`. -/
def splitDotChars : List Char → List (List Char)
  | [] => [[]]
  | c :: cs =>
    let r := splitDotChars cs
    if c == '.' then [] :: r
    else
      match r with
      | [] => [[c]]
      | g :: gs => (c :: g) :: gs

/-- Python `s.split('.')`. -/
def pySplitDot (s : String) : List String :=
  (splitDotChars s.toList).map String.mk

/-- Python `'.'.join(parts)`. -/
def pyJoinDot : List String → String
  | [] => ""
  | [s] => s
  | s :: rest => s ++ "." ++ pyJoinDot rest

/-- Python `s.strip('.')`: remove leading and trailing `'.'` characters. -/
def pyStripDot (s : String) : String :=
  String.mk (((s.toList.dropWhile (· == '.')).reverse.dropWhile (· == '.')).reverse)

/-- `Path.with_suffix('')` on a path component.  Every file considered by
either subsystem is produced by `rglob('*.py')`, so the only suffix that can
occur is `.py`. -/
def stripPyExt (s : String) : String :=
  if pyEndsWith s ".py" then String.mk (s.toList.take (s.toList.length - 3)) else s

/-- Drop `n` trailing components (`rel_parts.pop()` executed `n` times,
`slicer.py` lines 124–126; popping an empty list is a no-op there). -/
def dropLastN : Nat → List α → List α
  | 0, l => l
  | n + 1, l => dropLastN n l.dropLast

/-! ## Python abstract syntax

Just enough of the `ast` module for the constructs the two subsystems
inspect: imports, class/function definitions, attribute access, calls and
bare names.  `importS` carries one `(name, asname)` pair per alias;
`importFrom` carries the optional module, the alias list and the relative
level.  Async function definitions are kept separate because the source
tests `isinstance(node, (ast.ClassDef, ast.FunctionDef, ast.AsyncFunctionDef))`. -/

inductive PExpr where
  | nameE (id : String)
  | attributeE (value : PExpr) (attr : String)
  | callE (func : PExpr) (args : List PExpr)
  | constE

inductive PStmt where
  | importS (names : List (String × Option String))
  | importFrom (module : Option String) (names : List (String × Option String)) (level : Nat)
  | classDef (nm : String) (bases : List PExpr) (body : List PStmt)
  | functionDef (nm : String) (body : List PStmt)
  | asyncFunctionDef (nm : String) (body : List PStmt)
  | returnS (value : Option PExpr)
  | exprS (e : PExpr)
  | passS

/-! ## `get_used_names` (slicer.py lines 33–39)

`ast.walk` over a node, collecting the `id` of every `ast.Name`
encountered anywhere in the subtree.  (`ast.walk` enumerates breadth-first;
the recursive enumeration below produces the same collection of names, and
only membership in the collection is ever consulted.) -/

mutual

def exprNames : PExpr → List String
  | .nameE id => [id]
  | .attributeE v _ => exprNames v
  | .callE f args => exprNames f ++ exprNamesList args
  | .constE => []

def exprNamesList : List PExpr → List String
  | [] => []
  | e :: es => exprNames e ++ exprNamesList es

end

mutual

def stmtNames : PStmt → List String
  | .importS _ => []
  | .importFrom _ _ _ => []
  | .classDef _ bases body => exprNamesList bases ++ stmtNamesList body
  | .functionDef _ body => stmtNamesList body
  | .asyncFunctionDef _ body => stmtNamesList body
  | .returnS none => []
  | .returnS (some e) => exprNames e
  | .exprS e => exprNames e
  | .passS => []

def stmtNamesList : List PStmt → List String
  | [] => []
  | s :: ss => stmtNames s ++ stmtNamesList ss

end

/-- `get_used_names(node)` of `slicer.py`. -/
def get_used_names (node : PStmt) : List String :=
  stmtNames node

/-! ## Ordered dictionaries

A Python `dict` as an association list: insertion order is kept, an
assignment to an existing key updates it in place, lookup returns the value
of the (unique, by construction) matching key. -/

def dictContains (d : List (String × α)) (k : String) : Bool :=
  d.any (fun q => q.1 == k)

/-- `d[k] = v` on a Python dict. -/
def dictInsert (d : List (String × α)) (k : String) (v : α) : List (String × α) :=
  if dictContains d k then d.map (fun q => if q.1 == k then (k, v) else q)
  else d ++ [(k, v)]

/-- `d.get(k)` on a Python dict. -/
def dictFind (d : List (String × α)) (k : String) : Option α :=
  (d.find? (fun q => q.1 == k)).map (fun q => q.2)

/-! ## The slicer's module index (slicer.py lines 52–74)

`module_to_file`: for each file (in discovery order) derive the dotted
module parts (`rel_path.with_suffix('').parts`, dropping a trailing
`__init__.py`), then assign the full dotted name unconditionally and append
every proper dotted suffix that is not already a key. -/

/-- `parts` of `slicer.py` lines 60–62. -/
def modParts (p : List String) : List String :=
  if p.getLastD "" == "__init__.py" then p.dropLast
  else p.dropLast ++ [stripPyExt (p.getLastD "")]

/-- The body of the `for py_file in root.rglob("*.py")` loop
(`slicer.py` lines 60–71) for a single file `p`. -/
def addFileToIndex (d : List (String × List String)) (p : List String) :
    List (String × List String) :=
  let parts := modParts p
  let full_mod_name := pyJoinDot parts
  let d := if full_mod_name ≠ "" then dictInsert d full_mod_name p else d
  ((List.range parts.length).drop 1).foldl (fun d i =>
    let mod_name := pyJoinDot (parts.drop i)
    if mod_name ≠ "" ∧ dictContains d mod_name = false then d ++ [(mod_name, p)] else d) d

/-- `module_to_file` after the whole loop, files listed in discovery order. -/
def buildModuleIndex (files : List (List String)) : List (String × List String) :=
  files.foldl addFileToIndex []

/-! ## The slicer's import table (slicer.py lines 102–140)

`get_imports(t, fpath)` builds a dict mapping each locally bound name to the
list of module strings it may refer to; `add_import` appends to the list of
an existing key. -/

/-- `add_import(key, val)` (`slicer.py` lines 104–107). -/
def addImp (d : List (String × List String)) (k v : String) : List (String × List String) :=
  if dictContains d k then d.map (fun q => if q.1 == k then (q.1, q.2 ++ [v]) else q)
  else d ++ [(k, [v])]

/-- `get_imports(t, fpath)`: `fpath` is the file's root-relative path
components, so `fpath.parent.relative_to(root).parts` is `fpath.dropLast`
(every file handed to it lies under the root, so the `ValueError` branch
that would reset the parts to `[]` is unreachable in this model). -/
def get_imports (fpath : List String) (body : List PStmt) : List (String × List String) :=
  body.foldl (fun imports n =>
    match n with
    | .importS names =>
      names.foldl (fun imports a =>
        let imports := addImp imports (a.2.getD a.1) a.1
        if a.2.isNone ∧ a.1.toList.any (· == '.') then
          addImp imports ((pySplitDot a.1).headD "") a.1
        else imports) imports
    | .importFrom mod names level =>
      let module0 := mod.getD ""
      let module :=
        if level > 0 then
          let rel_parts := dropLastN (level - 1) fpath.dropLast
          let base_module := pyJoinDot rel_parts
          if base_module ≠ "" ∧ module0 ≠ "" then base_module ++ "." ++ module0
          else if base_module ≠ "" then base_module
          else module0
        else module0
      names.foldl (fun imports a =>
        let imports :=
          if level > 0 ∧ module0 = "" ∧ module ≠ "" then
            addImp imports (a.2.getD a.1) (module ++ "." ++ a.1)
          else imports
        addImp imports (a.2.getD a.1) module) imports
    | _ => imports) []

/-! ## The slicer (slicer.py lines 41–179) -/

/-- A discovered source file: root-relative path components plus the parsed
tree; `none` models a file whose `read_text`/`ast.parse` raises
(unreadable or unparsable). -/
structure SrcFile where
  path : List String
  tree : Option (List PStmt)

/-- `read_text` followed by `ast.parse` for the file at `p`
(`none` when either step fails, including a path that names no file). -/
def readParse (fs : List SrcFile) (p : List String) : Option (List PStmt) :=
  match fs.find? (fun f => f.path == p) with
  | some f => f.tree
  | none => none

/-- The target-symbol scan (`slicer.py` lines 88–93): the first top-level
class/function/async-function statement whose name is the symbol. -/
def findTopLevel (body : List PStmt) (symbol_name : String) : Option PStmt :=
  body.find? (fun n =>
    match n with
    | .classDef nm _ _ => nm == symbol_name
    | .functionDef nm _ => nm == symbol_name
    | .asyncFunctionDef nm _ => nm == symbol_name
    | _ => false)

/-- The module strings enqueued when the BFS expands file `p`
(`slicer.py` lines 170–177): parse it, build its import table, and take
every candidate list; a read/parse failure enqueues nothing. -/
def fileImports (fs : List SrcFile) (p : List String) : List String :=
  match readParse fs p with
  | some tree => (get_imports p tree).flatMap (fun kv => kv.2)
  | none => []

/-- Pops queue entries until one is found that has not been processed yet
(the consecutive `if module in processed_modules: continue` iterations of
the `while` loop, `slicer.py` lines 154–157, collapsed into one step);
returns that entry and the rest of the queue.  `remaining` is the
complement of the source's `processed_modules` inside the finite universe
of module strings that can ever be enqueued. -/
def findFirstIn (remaining : List String) : List String → Option (String × List String)
  | [] => none
  | m :: q => if m ∈ remaining then some (m, q) else findFirstIn remaining q

/-- The BFS loop (`slicer.py` lines 154–177).  The source tracks the set
`processed_modules`; here the same information is carried as its complement
`remaining` inside the finite universe of enqueueable strings (every string
ever placed on the queue is drawn from the initial `remaining`), which
exhibits termination: each processed module strictly shrinks `remaining`.
The counter `n` is kept equal to `remaining.length` by the caller. -/
def sliceBFS (fs : List SrcFile) (index : List (String × List String)) :
    Nat → List String → List String → List (List String) → List (List String)
  | 0, _, _, selected => selected
  | n + 1, remaining, queue, selected =>
    match findFirstIn remaining queue with
    | none => selected
    | some (m, q) =>
      let remaining := remaining.erase m
      match dictFind index m with
      | none => sliceBFS fs index n remaining q selected
      | some file_path =>
        if file_path ∈ selected then sliceBFS fs index n remaining q selected
        else sliceBFS fs index n remaining (q ++ fileImports fs file_path) (selected ++ [file_path])

/-- `resolve_slice_dependencies(root_path, start_file, symbol_name)`
(`slicer.py` lines 41–179).  `fs` is the list of files under the root in
discovery order; `start` is the start file's root-relative path;
the result models the returned set `selected_files` (a list that, as proved
below, never holds a path twice). -/
def resolve_slice_dependencies (fs : List SrcFile) (start : List String)
    (symbol_name : String) : List (List String) :=
  let module_to_file := buildModuleIndex (fs.map (fun f => f.path))
  match readParse fs start with
  | none => [start]
  | some tree =>
    let selected := [start]
    match findTopLevel tree symbol_name with
    | none => selected
    | some target_node =>
      let used_names := get_used_names target_node
      let start_imports := get_imports start tree
      let queue := start_imports.foldl
        (fun q kv => if kv.1 ∈ used_names then q ++ kv.2 else q) []
      let enqueueable := (queue ++ (fs.map (fun f => f.path)).flatMap (fileImports fs)).dedup
      sliceBFS fs module_to_file enqueueable.length enqueueable queue selected

/-! ## The namespace builder (dependency_mapper.py lines 105–120)

`DependencyMapper._build_project_modules`: for every analyzed file, derive a
dotted module name (`__init__.py` stands for its parent directory), and add
it together with every proper dotted prefix to the project-module set,
skipping the root marker name `"."`. -/

/-- `module_name` for one file (`dependency_mapper.py` lines 109–113):
`str(rel_path.parent)` is `"."` for a root-level `__init__.py`. -/
def file_module_name (p : List String) : String :=
  if p.getLastD "" == "__init__.py" then
    if p.dropLast.isEmpty then "." else pyJoinDot p.dropLast
  else pyJoinDot (p.dropLast ++ [stripPyExt (p.getLastD "")])

/-- Adding one element to a Python set (only membership is observed). -/
def addSet (s : List String) (x : String) : List String :=
  if x ∈ s then s else s ++ [x]

/-- The names one file contributes to `project_modules`
(`dependency_mapper.py` lines 115–120): the full dotted name plus the
prefixes `'.'.join(parts[:i])` for `i` in `range(1, len(parts))`; nothing
when the name is `"."`. -/
def fileModules (p : List String) : List String :=
  let module_name := file_module_name p
  if module_name = "." then []
  else
    let parts := pySplitDot module_name
    module_name :: ((List.range parts.length).drop 1).map (fun i => pyJoinDot (parts.take i))

/-- `_build_project_modules` over the file list (processing order is the
order of `self.python_files`). -/
def build_project_modules (files : List (List String)) : List String :=
  files.foldl (fun s p => (fileModules p).foldl addSet s) []

/-! ## The per-file extractor's records (dependency_mapper.py lines 10–51,
192–217, 249–287) -/

/-- `ImportInfo` (`dependency_mapper.py` lines 10–18). -/
structure ImportInfo where
  module : String
  asname : Option String
  is_from_import : Bool
  imported_names : List String
  is_external : Bool
  line_number : Nat

/-- One iteration of `visit_Import` (`dependency_mapper.py` lines 192–202):
the record built for one `alias` of a plain `import`; `is_external` is
exactly `alias.name not in self.mapper.project_modules`. -/
def visit_import_alias (project_modules : List String) (nm : String)
    (asn : Option String) (line : Nat) : ImportInfo :=
  { module := nm, asname := asn, is_from_import := false, imported_names := [],
    is_external := decide (nm ∉ project_modules), line_number := line }

/-- `ClassInfo` (`dependency_mapper.py` lines 21–28); the `methods` and
`line_number` fields are never consulted by relationship resolution and are
omitted. -/
structure ClassInfo where
  name : String
  file_path : String
  bases : List String
deriving DecidableEq

/-- `FunctionInfo` (`dependency_mapper.py` lines 31–40); `line_number` and
`is_method` are never consulted by relationship resolution and are omitted;
the mutable `called_by` list is recovered below as `calledBy`, since the
source appends to it at exactly the program point that records a call
edge. -/
structure FunctionInfo where
  name : String
  file_path : String
  calls : List String
  class_name : Option String
deriving DecidableEq

/-- `class_key = f"{self.file_path}::{node.name}"`
(`dependency_mapper.py` line 233). -/
def classKey (file_path nm : String) : String :=
  file_path ++ "::" ++ nm

/-- `func_key = f"{self.file_path}::{self.current_class or ''}.{node.name}".strip('.')`
(`dependency_mapper.py` line 259).  Note that `strip` only trims the string's
ends, so for a top-level function the key keeps the shape `file::.name`. -/
def funcKey (file_path : String) (current_class : Option String) (nm : String) : String :=
  pyStripDot (file_path ++ "::" ++ current_class.getD "" ++ "." ++ nm)

/-- Python truthiness of an `Optional[str]`: falsy iff `None` or empty. -/
def pyFalsy (o : Option String) : Bool :=
  o.getD "" == ""

/-- Classification of one `ast.Call` node's `func` by
`_visit_function_def` (`dependency_mapper.py` lines 273–282): a bare name is
recorded as itself, `self.attr` (inside a class) as the bare attribute,
`name.attr` as `"name.attr"`, anything else is ignored. -/
def classifyCall (inClass : Bool) (f : PExpr) : List String :=
  match f with
  | .nameE id => [id]
  | .attributeE (.nameE vid) attr =>
    if vid == "self" ∧ inClass then [attr] else [vid ++ "." ++ attr]
  | _ => []

/-! The `ast.walk` over a function body that feeds `classifyCall`
(breadth-first in the source; the recursive enumeration yields the same
multiset of tokens, and resolution only iterates over them). -/

mutual

def exprCalls (inClass : Bool) : PExpr → List String
  | .nameE _ => []
  | .attributeE v _ => exprCalls inClass v
  | .callE f args => classifyCall inClass f ++ exprCalls inClass f ++ exprCallsList inClass args
  | .constE => []

def exprCallsList (inClass : Bool) : List PExpr → List String
  | [] => []
  | e :: es => exprCalls inClass e ++ exprCallsList inClass es

end

mutual

def stmtCalls (inClass : Bool) : PStmt → List String
  | .importS _ => []
  | .importFrom _ _ _ => []
  | .classDef _ bases body => exprCallsList inClass bases ++ stmtCallsList inClass body
  | .functionDef _ body => stmtCallsList inClass body
  | .asyncFunctionDef _ body => stmtCallsList inClass body
  | .returnS none => []
  | .returnS (some e) => exprCalls inClass e
  | .exprS e => exprCalls inClass e
  | .passS => []

def stmtCallsList (inClass : Bool) : List PStmt → List String
  | [] => []
  | s :: ss => stmtCalls inClass s ++ stmtCallsList inClass ss

end

/-- `_visit_function_def` (`dependency_mapper.py` lines 257–287): the
key/record pair stored into `self.analysis.functions` for a function with
the given file, enclosing class and body.  The `self`-receiver test uses the
truthiness of `current_class`, as in
`child.func.value.id == 'self' and self.current_class`. -/
def visit_function_def_entry (file_path : String) (current_class : Option String)
    (nm : String) (body : List PStmt) : String × FunctionInfo :=
  (funcKey file_path current_class nm,
   { name := nm, file_path := file_path,
     calls := stmtCallsList (!pyFalsy current_class) body,
     class_name := current_class })

/-! ## The relationship resolver (dependency_mapper.py lines 144–181)

Entity collections are association lists in insertion order — the Python
dicts `self.analysis.classes` / `self.analysis.functions` iterate in the
order files were processed and declarations encountered. -/

/-- The base-class match test (`dependency_mapper.py` line 157):
`other_class.name == base or other_key.endswith(f".{base}")`. -/
def matchesBase (base : String) (e : String × ClassInfo) : Bool :=
  e.2.name == base || pyEndsWith e.1 ("." ++ base)

/-- The candidate picked for one base token: the first match in the
enumeration of `self.analysis.classes.items()` (the `break` at line 159). -/
def inheritanceCandidate (classes : List (String × ClassInfo)) (base : String) :
    Option (String × ClassInfo) :=
  classes.find? (matchesBase base)

/-- The inheritance edges `(base key, derived key)` recorded by the loop at
`dependency_mapper.py` lines 153–159 (`inheritance_tree[other_key].append(class_key)`). -/
def buildInheritance (classes : List (String × ClassInfo)) : List (String × String) :=
  classes.flatMap (fun e =>
    e.2.bases.filterMap (fun base =>
      (inheritanceCandidate classes base).map (fun o => (o.1, e.1))))

/-- The three-rule call match (`dependency_mapper.py` lines 169–178). -/
def callMatches (fi : FunctionInfo) (call : String) (e : String × FunctionInfo) : Bool :=
  let same_file := fi.file_path == e.2.file_path
  let same_class := fi.class_name == e.2.class_name
  (e.2.name == call && same_file && same_class) ||
  (e.2.name == call && same_file && pyFalsy fi.class_name && pyFalsy e.2.class_name) ||
  (pyEndsWith e.1 ("::" ++ call) && !same_file)

/-- The full predicate the scan applies to a candidate entry: the self-key
skip at line 166 (`if other_key == func_key: continue`) plus `callMatches`. -/
def callPred (fk : String) (fi : FunctionInfo) (call : String)
    (e : String × FunctionInfo) : Bool :=
  !(e.1 == fk) && callMatches fi call e

/-- The candidate picked for one callee token: the first match in the
enumeration of `self.analysis.functions.items()` (the `break` at line 181). -/
def callCandidate (functions : List (String × FunctionInfo)) (fk : String)
    (fi : FunctionInfo) (call : String) : Option (String × FunctionInfo) :=
  functions.find? (callPred fk fi call)

/-- The call edges `(caller key, callee key)` recorded by the loop at
`dependency_mapper.py` lines 162–181
(`function_call_graph[func_key].add(other_key)`). -/
def buildCallGraph (functions : List (String × FunctionInfo)) : List (String × String) :=
  functions.flatMap (fun e =>
    e.2.calls.filterMap (fun call =>
      (callCandidate functions e.1 e.2 call).map (fun o => (e.1, o.1))))

/-- The final content of a function's `called_by` list: the source appends
`func_key` to `other_func.called_by` at exactly the point it records the
edge `(func_key, other_key)` (line 180), so the list is the callers of the
edges targeting this key, in recording order. -/
def calledBy (functions : List (String × FunctionInfo)) (k : String) : List String :=
  ((buildCallGraph functions).filter (fun e => e.2 == k)).map (fun e => e.1)

/-! ## The spec's sorted enumeration (spec §4.3)

The specification describes the resolver as scanning "a deterministic,
sorted enumeration of entities (sort key: file path, then qualified name)".
The definitions below follow those words; they exist only to be compared
with the resolver embedded above from the source. -/

/-- Lexicographic order on character lists by code point. -/
def charListLt : List Char → List Char → Bool
  | [], [] => false
  | [], _ :: _ => true
  | _ :: _, [] => false
  | a :: as, b :: bs =>
    if a.toNat < b.toNat then true
    else if b.toNat < a.toNat then false
    else charListLt as bs

def strLtB (a b : String) : Bool :=
  charListLt a.toList b.toList

def strLeB (a b : String) : Bool :=
  strLtB a b || a == b

/-- The spec's sort key on a class entity: file path, then qualified name. -/
def classSortLE (a b : String × ClassInfo) : Bool :=
  if a.2.file_path == b.2.file_path then strLeB a.1 b.1
  else strLtB a.2.file_path b.2.file_path

def insertLE (le : α → α → Bool) (x : α) : List α → List α
  | [] => [x]
  | y :: ys => if le x y then x :: y :: ys else y :: insertLE le x ys

def sortLE (le : α → α → Bool) : List α → List α
  | [] => []
  | x :: xs => insertLE le x (sortLE le xs)

/-- The sorted enumeration of class entities described by spec §4.3
("sort key: file path, then qualified name"). -/
def sorted_enumeration (classes : List (String × ClassInfo)) : List (String × ClassInfo) :=
  sortLE classSortLE classes

/-! ## Concrete fixtures used by the theorems below -/

/-- Scenario A: `a.py` holds `from b import helper` and
`def f(): return helper()`; `b.py` holds `def helper(): pass`. -/
def scenario_a_fs : List SrcFile :=
  [{ path := ["a.py"], tree := some [.importFrom (some "b") [("helper", none)] 0,
       .functionDef "f" [.returnS (some (.callE (.nameE "helper") []))]] },
   { path := ["b.py"], tree := some [.functionDef "helper" [.passS]] }]

/-- An import cycle: `a.py` holds `import b` and `def f(): return b.g()`;
`b.py` holds `import a`. -/
def cycle_fs : List SrcFile :=
  [{ path := ["a.py"], tree := some [.importS [("b", none)],
       .functionDef "f" [.returnS (some (.callE (.attributeE (.nameE "b") "g") []))]] },
   { path := ["b.py"], tree := some [.importS [("a", none)]] }]

/-- A single parseable file whose only top-level statement is `pass`. -/
def plain_fs : List SrcFile :=
  [{ path := ["s.py"], tree := some [.passS] }]

/-- `class Base` in `z.py`. -/
def ciBaseZ : ClassInfo := { name := "Base", file_path := "z.py", bases := [] }

/-- `class Base` in `a.py`. -/
def ciBaseA : ClassInfo := { name := "Base", file_path := "a.py", bases := [] }

/-- `class D(Base)` in `m.py`. -/
def ciD : ClassInfo := { name := "D", file_path := "m.py", bases := ["Base"] }

/-- A class collection whose insertion order (`z.py` processed first)
differs from the spec's sorted order. -/
def classes_cex : List (String × ClassInfo) :=
  [(classKey "z.py" "Base", ciBaseZ), (classKey "a.py" "Base", ciBaseA),
   (classKey "m.py" "D", ciD)]

/-- A class collection whose first entry does not match the base token. -/
def classes_w : List (String × ClassInfo) :=
  [(classKey "m.py" "D", ciD), (classKey "a.py" "Base", ciBaseA)]

/-- `def f(): return g()`, top level of `p.py`. -/
def fiF : FunctionInfo :=
  { name := "f", file_path := "p.py", calls := ["g"], class_name := none }

/-- `def g(): pass`, top level of `p.py`. -/
def fiG : FunctionInfo :=
  { name := "g", file_path := "p.py", calls := [], class_name := none }

/-- A function collection where the caller precedes its callee. -/
def functions_w : List (String × FunctionInfo) :=
  [(funcKey "p.py" none "f", fiF), (funcKey "p.py" none "g", fiG)]

/-- Scenario E entities: method `m` of class `C` in `x.py` whose body calls
`self.helper()`, and an unrelated top-level `helper` in `y.py`. -/
def c1_functions : List (String × FunctionInfo) :=
  [visit_function_def_entry "x.py" (some "C") "m"
     [.exprS (.callE (.attributeE (.nameE "self") "helper") [])],
   visit_function_def_entry "y.py" none "helper" [.passS]]

/-! ## Helper lemmas -/

/-- `List.find?` returns a first match: the list splits at the witness and
everything before it fails the predicate. -/
theorem find?_eq_some_split {α : Type _} {p : α → Bool} :
    ∀ {l : List α} {a : α}, l.find? p = some a →
      p a = true ∧ ∃ l₁ l₂, l = l₁ ++ a :: l₂ ∧ ∀ x ∈ l₁, p x = false := by
  intro l
  induction l with
  | nil => intro a h; simp [List.find?] at h
  | cons y ys ih =>
    intro a h
    by_cases hy : p y = true
    · rw [List.find?_cons_of_pos _ hy] at h
      cases h
      exact ⟨hy, [], ys, rfl, by simp⟩
    · have hy' : p y = false := by simpa using hy
      rw [List.find?_cons_of_neg _ (by simp [hy'])] at h
      obtain ⟨hpa, l₁, l₂, hsplit, hall⟩ := ih h
      refine ⟨hpa, y :: l₁, l₂, by rw [hsplit]; rfl, ?_⟩
      intro x hx
      rcases List.mem_cons.1 hx with rfl | hx
      · exact hy'
      · exact hall x hx

theorem mem_addSet {s : List String} {x y : String} :
    y ∈ addSet s x ↔ y ∈ s ∨ y = x := by
  unfold addSet
  split
  · rename_i hx
    constructor
    · exact Or.inl
    · rintro (h | rfl)
      · exact h
      · exact hx
  · simp

theorem mem_foldl_addSet : ∀ (l : List String) (s : List String) (y : String),
    y ∈ l.foldl addSet s ↔ y ∈ s ∨ y ∈ l := by
  intro l
  induction l with
  | nil => simp
  | cons x xs ih =>
    intro s y
    rw [List.foldl_cons, ih, mem_addSet]
    simp [or_assoc]

theorem mem_build_project_modules_aux :
    ∀ (files : List (List String)) (s : List String) (y : String),
      y ∈ files.foldl (fun s p => (fileModules p).foldl addSet s) s ↔
        y ∈ s ∨ ∃ p ∈ files, y ∈ fileModules p := by
  intro files
  induction files with
  | nil => simp
  | cons f fsx ih =>
    intro s y
    rw [List.foldl_cons, ih, mem_foldl_addSet]
    constructor
    · rintro ((h | h) | ⟨p, hp, hm⟩)
      · exact Or.inl h
      · exact Or.inr ⟨f, by simp, h⟩
      · exact Or.inr ⟨p, by simp [hp], hm⟩
    · rintro (h | ⟨p, hp, hm⟩)
      · exact Or.inl (Or.inl h)
      · rcases List.mem_cons.1 hp with rfl | hp
        · exact Or.inl (Or.inr hm)
        · exact Or.inr ⟨p, hp, hm⟩

/-- Membership in the project-module set depends only on which files were
handed to the namespace builder, via the names each file contributes. -/
theorem mem_build_project_modules (files : List (List String)) (y : String) :
    y ∈ build_project_modules files ↔ ∃ p ∈ files, y ∈ fileModules p := by
  simpa using mem_build_project_modules_aux files [] y

theorem dictFind_append_some {α : Type _} {d : List (String × α)} {k : String} {v : α}
    (h : dictFind d k = some v) (e : List (String × α)) :
    dictFind (d ++ e) k = some v := by
  unfold dictFind at h ⊢
  rcases Option.map_eq_some'.1 h with ⟨q, hq, hv⟩
  rw [List.find?_append, hq]
  simpa using hv

/-- A fold that only ever appends entries never disturbs an existing key. -/
theorem dictFind_foldl_append_some {α β : Type _} {k : String} {v : α}
    (f : List (String × α) → β → List (String × α))
    (hf : ∀ d i, f d i = d ∨ ∃ kv, f d i = d ++ [kv]) :
    ∀ (l : List β) (d : List (String × α)), dictFind d k = some v →
      dictFind (l.foldl f d) k = some v := by
  intro l
  induction l with
  | nil => intro d h; exact h
  | cons i is ih =>
    intro d h
    rw [List.foldl_cons]
    rcases hf d i with he | ⟨kv, he⟩
    · rw [he]; exact ih d h
    · rw [he]; exact ih _ (dictFind_append_some h [kv])

theorem find?_map_replace {α : Type _} (k' k : String) (v' : α) :
    ∀ (d : List (String × α)),
      (d.map (fun q => if q.1 == k' then (k', v') else q)).find? (fun q => q.1 == k)
        = if k' = k then (d.find? (fun q => q.1 == k)).map (fun _ => (k', v'))
          else d.find? (fun q => q.1 == k) := by
  intro d
  induction d with
  | nil => by_cases hkk : k' = k <;> simp [hkk]
  | cons a t ih =>
    by_cases hak : a.1 = k'
    · by_cases hkk : k' = k
      · subst hkk
        rw [List.map_cons, if_pos (by simpa using hak),
          List.find?_cons_of_pos _ (by simp),
          List.find?_cons_of_pos _ (by simpa using hak)]
        simp
      · rw [List.map_cons, if_pos (by simpa using hak),
          List.find?_cons_of_neg _ (by simp [hkk]),
          List.find?_cons_of_neg _ (by simp [hak, hkk]),
          ih, if_neg hkk]
    · have hrep : (if a.1 == k' then (k', v') else a) = a := by
        simp [hak]
      by_cases hka : a.1 = k
      · rw [List.map_cons, hrep, List.find?_cons_of_pos _ (by simpa using hka),
          List.find?_cons_of_pos _ (by simpa using hka)]
        have hkk : ¬ k' = k := fun h => hak (by rw [h, hka])
        simp [hkk]
      · rw [List.map_cons, hrep, List.find?_cons_of_neg _ (by simpa using hka),
          List.find?_cons_of_neg _ (by simpa using hka), ih]

/-- Lookups after a Python dict assignment `d[k'] = v'`. -/
theorem dictFind_dictInsert {α : Type _} (d : List (String × α)) (k' k : String) (v' : α) :
    dictFind (dictInsert d k' v') k = if k' = k then some v' else dictFind d k := by
  unfold dictInsert
  split
  · rename_i hc
    unfold dictFind
    rw [find?_map_replace]
    by_cases hkk : k' = k
    · subst hkk
      have hex : ∃ q, d.find? (fun q => q.1 == k') = some q := by
        rw [← Option.isSome_iff_exists, List.find?_isSome]
        unfold dictContains at hc
        rcases List.any_eq_true.1 hc with ⟨q, hq, hqk⟩
        exact ⟨q, hq, hqk⟩
      obtain ⟨q, hq⟩ := hex
      rw [if_pos rfl, if_pos rfl, hq]
      simp
    · rw [if_neg hkk, if_neg hkk]
  · rename_i hc
    by_cases hkk : k' = k
    · subst hkk
      unfold dictFind
      rw [List.find?_append]
      have hnone : d.find? (fun q => q.1 == k') = none := by
        rw [List.find?_eq_none]
        intro q hq hqk
        exact hc (List.any_eq_true.2 ⟨q, hq, hqk⟩)
      rw [hnone]
      simp
    · unfold dictFind
      rw [List.find?_append, if_neg hkk]
      cases hd : d.find? (fun q => q.1 == k) with
      | some q => simp
      | none =>
        simp only [Option.none_or]
        rw [List.find?_cons_of_neg _ (by simp [hkk])]
        simp

/-! Branch equations for `sliceBFS` (each follows by one step of
reduction). -/

theorem sliceBFS_eq_none (fs : List SrcFile) (index : List (String × List String))
    (n : Nat) (rem q : List String) (sel : List (List String))
    (h : findFirstIn rem q = none) :
    sliceBFS fs index (n + 1) rem q sel = sel := by
  rw [sliceBFS, h]

theorem sliceBFS_eq_lookup (fs : List SrcFile) (index : List (String × List String))
    (n : Nat) (rem q : List String) (sel : List (List String)) (m : String)
    (q' : List String) (h : findFirstIn rem q = some (m, q')) :
    sliceBFS fs index (n + 1) rem q sel =
      match dictFind index m with
      | none => sliceBFS fs index n (rem.erase m) q' sel
      | some file_path =>
        if file_path ∈ sel then sliceBFS fs index n (rem.erase m) q' sel
        else sliceBFS fs index n (rem.erase m) (q' ++ fileImports fs file_path)
          (sel ++ [file_path]) := by
  rw [sliceBFS, h]

/-- `sliceBFS` only ever appends to the selection. -/
theorem mem_sliceBFS (fs : List SrcFile) (index : List (String × List String)) :
    ∀ (n : Nat) (remaining queue : List String) (selected : List (List String))
      (x : List String), x ∈ selected → x ∈ sliceBFS fs index n remaining queue selected := by
  intro n
  induction n with
  | zero => intro rem q sel x hx; simpa [sliceBFS] using hx
  | succ n ih =>
    intro rem q sel x hx
    cases hfind : findFirstIn rem q with
    | none => rw [sliceBFS_eq_none fs index n rem q sel hfind]; exact hx
    | some pair =>
      obtain ⟨m, q'⟩ := pair
      rw [sliceBFS_eq_lookup fs index n rem q sel m q' hfind]
      cases hdict : dictFind index m with
      | none => exact ih _ _ _ _ hx
      | some fp =>
        show x ∈ (if fp ∈ sel then sliceBFS fs index n (rem.erase m) q' sel
          else sliceBFS fs index n (rem.erase m) (q' ++ fileImports fs fp) (sel ++ [fp]))
        by_cases hin : fp ∈ sel
        · rw [if_pos hin]
          exact ih _ _ _ _ hx
        · rw [if_neg hin]
          exact ih _ _ _ _ (List.mem_append_left _ hx)

/-- `sliceBFS` keeps the selection duplicate-free: a file is appended only
after the `if str(file_path) in selected_files: continue` test fails. -/
theorem nodup_sliceBFS (fs : List SrcFile) (index : List (String × List String)) :
    ∀ (n : Nat) (remaining queue : List String) (selected : List (List String)),
      selected.Nodup → (sliceBFS fs index n remaining queue selected).Nodup := by
  intro n
  induction n with
  | zero => intro rem q sel h; simpa [sliceBFS] using h
  | succ n ih =>
    intro rem q sel h
    cases hfind : findFirstIn rem q with
    | none => rw [sliceBFS_eq_none fs index n rem q sel hfind]; exact h
    | some pair =>
      obtain ⟨m, q'⟩ := pair
      rw [sliceBFS_eq_lookup fs index n rem q sel m q' hfind]
      cases hdict : dictFind index m with
      | none => exact ih _ _ _ h
      | some fp =>
        show (if fp ∈ sel then sliceBFS fs index n (rem.erase m) q' sel
          else sliceBFS fs index n (rem.erase m) (q' ++ fileImports fs fp) (sel ++ [fp])).Nodup
        by_cases hin : fp ∈ sel
        · rw [if_pos hin]
          exact ih _ _ _ h
        · rw [if_neg hin]
          refine ih _ _ _ (List.nodup_append.2 ⟨h, by simp, ?_⟩)
          intro a ha ha'
          rw [List.mem_singleton.1 ha'] at ha
          exact hin ha

/-- No entry of the call graph is a self-loop, because the scan skips the
candidate whose key equals the caller's key. -/
theorem callGraph_no_self_edge (functions : List (String × FunctionInfo)) (k : String) :
    (k, k) ∉ buildCallGraph functions := by
  intro hmem
  unfold buildCallGraph at hmem
  rcases List.mem_flatMap.1 hmem with ⟨e, he, hin⟩
  rcases List.mem_filterMap.1 hin with ⟨call, hcall, hsome⟩
  rcases Option.map_eq_some'.1 hsome with ⟨o, hcand, heq⟩
  have h1 : e.1 = k := congrArg Prod.fst heq
  have h2 : o.1 = k := congrArg Prod.snd heq
  have hp : callPred e.1 e.2 call o = true := List.find?_some hcand
  unfold callPred at hp
  rw [Bool.and_eq_true] at hp
  have hne := hp.1
  rw [h1, h2] at hne
  simp at hne

/-! ## The claims -/

/-- C1: a method of class `C` in `x.py` whose body calls `self.helper()`
records the bare token `"helper"`; with no `helper` method in `C` and only
an unrelated top-level `helper` in `y.py`, call resolution produces no call
edge at all (in particular none from the caller to `y.py`'s `helper`):
rule 3's suffix test compares against the key `"y.py::.helper"`, whose
`"::.helper"` tail does not end in `"::helper"`. -/
theorem self_call_unresolved_no_edge :
    (visit_function_def_entry "x.py" (some "C") "m"
        [.exprS (.callE (.attributeE (.nameE "self") "helper") [])]).2.calls = ["helper"]
    ∧ buildCallGraph c1_functions = [] :=
  ⟨rfl, rfl⟩

/-- C2 counterexample: with `b/a.py` processed before `a.py`, the suffix
`"a"` is first registered for `b/a.py`, but processing `a.py` afterwards
overwrites it (its full module name `"a"` is assigned unconditionally,
`slicer.py` line 66), so a later file does change the file mapped to an
already-registered suffix string. -/
theorem module_index_first_claim_cex :
    dictFind (buildModuleIndex [["b", "a.py"]]) "a" = some ["b", "a.py"]
    ∧ dictFind (buildModuleIndex [["b", "a.py"], ["a.py"]]) "a" = some ["a.py"] :=
  ⟨rfl, rfl⟩

/-- C2 amended: processing a later file preserves the file registered under
any existing key, except that the later file's full dotted module name is
assigned unconditionally and overwrites that one key; only the proper
dotted suffixes are first-registration-wins. -/
theorem module_index_suffix_stable (d : List (String × List String)) (p : List String)
    (k : String) (v : List String) (hk : k ≠ "") (h : dictFind d k = some v) :
    dictFind (addFileToIndex d p) k =
      some (if pyJoinDot (modParts p) = k then p else v) := by
  unfold addFileToIndex
  have hstep : ∀ (d : List (String × List String)) (i : Nat),
      (let mod_name := pyJoinDot ((modParts p).drop i)
       if mod_name ≠ "" ∧ dictContains d mod_name = false then d ++ [(mod_name, p)] else d) = d
      ∨ ∃ kv, (let mod_name := pyJoinDot ((modParts p).drop i)
          if mod_name ≠ "" ∧ dictContains d mod_name = false then d ++ [(mod_name, p)] else d)
        = d ++ [kv] := by
    intro d i
    dsimp only
    split
    · exact Or.inr ⟨_, rfl⟩
    · exact Or.inl rfl
  by_cases hfull : pyJoinDot (modParts p) = k
  · rw [if_pos hfull]
    refine dictFind_foldl_append_some _ hstep _ _ ?_
    rw [if_pos (hfull ▸ hk), dictFind_dictInsert, if_pos hfull]
  · rw [if_neg hfull]
    refine dictFind_foldl_append_some _ hstep _ _ ?_
    by_cases hne : pyJoinDot (modParts p) ≠ ""
    · rw [if_pos hne, dictFind_dictInsert, if_neg hfull]
      exact h
    · rw [if_neg hne]
      exact h

theorem module_index_suffix_stable_witness :
    dictFind (addFileToIndex [("a", ["b", "a.py"])] ["a.py"]) "a" =
      some (if pyJoinDot (modParts ["a.py"]) = "a" then ["a.py"] else ["b", "a.py"]) :=
  module_index_suffix_stable [("a", ["b", "a.py"])] ["a.py"] "a" ["b", "a.py"]
    (by decide) rfl

/-- C3 counterexample: the resolver scans `self.analysis.classes.items()` in
insertion order, not in the spec's sorted order.  With `z.py` processed
first, the base token `"Base"` of `m.py::D` resolves to `z.py::Base`,
while the first match in the sorted enumeration (file path, then qualified
name) is `a.py::Base`. -/
theorem resolver_enumeration_not_sorted_cex :
    inheritanceCandidate classes_cex "Base" = some (classKey "z.py" "Base", ciBaseZ)
    ∧ (sorted_enumeration classes_cex).find? (matchesBase "Base")
        = some (classKey "a.py" "Base", ciBaseA)
    ∧ classKey "z.py" "Base" ≠ classKey "a.py" "Base"
    ∧ buildInheritance classes_cex = [(classKey "z.py" "Base", classKey "m.py" "D")] :=
  ⟨rfl, by decide, by decide, rfl⟩

/-- C3 amended: for every entity collection, the candidate chosen for each
base token and each callee token is the first match in the collection's own
(insertion) enumeration order: the candidate satisfies the match predicate
and every entity listed before it fails that predicate. -/
theorem resolver_first_match_insertion_order :
    (∀ (classes : List (String × ClassInfo)) (base : String) (c : String × ClassInfo),
        inheritanceCandidate classes base = some c →
        matchesBase base c = true ∧
          ∃ l₁ l₂, classes = l₁ ++ c :: l₂ ∧ ∀ e ∈ l₁, matchesBase base e = false)
    ∧ (∀ (functions : List (String × FunctionInfo)) (fk : String) (fi : FunctionInfo)
        (call : String) (c : String × FunctionInfo),
        callCandidate functions fk fi call = some c →
        callPred fk fi call c = true ∧
          ∃ l₁ l₂, functions = l₁ ++ c :: l₂ ∧ ∀ e ∈ l₁, callPred fk fi call e = false) := by
  constructor
  · intro classes base c h
    exact find?_eq_some_split h
  · intro functions fk fi call c h
    exact find?_eq_some_split h

theorem resolver_first_match_insertion_order_witness :
    (matchesBase "Base" (classKey "a.py" "Base", ciBaseA) = true ∧
      ∃ l₁ l₂, classes_w = l₁ ++ (classKey "a.py" "Base", ciBaseA) :: l₂ ∧
        ∀ e ∈ l₁, matchesBase "Base" e = false)
    ∧ (callPred (funcKey "p.py" none "f") fiF "g" (funcKey "p.py" none "g", fiG) = true ∧
      ∃ l₁ l₂, functions_w = l₁ ++ (funcKey "p.py" none "g", fiG) :: l₂ ∧
        ∀ e ∈ l₁, callPred (funcKey "p.py" none "f") fiF "g" e = false) :=
  ⟨resolver_first_match_insertion_order.1 classes_w "Base" _ rfl,
   resolver_first_match_insertion_order.2 functions_w (funcKey "p.py" none "f") fiF "g" _ rfl⟩

/-- C4: whenever the start file cannot be read or parsed, or the requested
symbol is not a top-level class/function of the start file, the slicer
returns exactly the singleton of the start file's path (the embedding is a
total function, so no exception can escape). -/
theorem slice_missing_symbol_singleton (fs : List SrcFile) (start : List String)
    (symbol_name : String)
    (h : readParse fs start = none ∨
      ∃ t, readParse fs start = some t ∧ findTopLevel t symbol_name = none) :
    resolve_slice_dependencies fs start symbol_name = [start] := by
  unfold resolve_slice_dependencies
  rcases h with h | ⟨t, ht, hf⟩
  · rw [h]
  · rw [ht]
    show (match findTopLevel t symbol_name with
      | none => [start]
      | some target_node =>
        let used_names := get_used_names target_node
        let start_imports := get_imports start t
        let queue := start_imports.foldl
          (fun q kv => if kv.1 ∈ used_names then q ++ kv.2 else q) []
        let enqueueable :=
          (queue ++ (fs.map (fun f => f.path)).flatMap (fileImports fs)).dedup
        sliceBFS fs (buildModuleIndex (fs.map (fun f => f.path)))
          enqueueable.length enqueueable queue [start]) = [start]
    rw [hf]

theorem slice_missing_symbol_singleton_witness :
    resolve_slice_dependencies plain_fs ["s.py"] "g" = [["s.py"]] :=
  slice_missing_symbol_singleton plain_fs ["s.py"] "g" (Or.inr ⟨[.passS], rfl, rfl⟩)

/-- C5: for every file collection, start file and symbol name, the set the
slicer returns contains the start file's path: both early-return branches
return the singleton of the start path, and the BFS only ever appends to a
selection seeded with it. -/
theorem slice_result_has_start (fs : List SrcFile) (start : List String)
    (symbol_name : String) :
    start ∈ resolve_slice_dependencies fs start symbol_name := by
  unfold resolve_slice_dependencies
  cases ht : readParse fs start with
  | none => simp
  | some tree =>
    dsimp only
    cases hf : findTopLevel tree symbol_name with
    | none => simp
    | some tgt =>
      dsimp only
      exact mem_sliceBFS fs _ _ _ _ [start] start (by simp)

/-- C6: the slicer's BFS terminates on every input — the embedding is a
total function whose step count is bounded by the finite universe of
enqueueable module strings, mirroring the `processed_modules` skip — and
returns a list containing each file path at most once; on the concrete
two-file import cycle (`a.py` imports `b`, `b.py` imports `a`) it returns
exactly the two files. -/
theorem slice_bfs_cycle_safe :
    (∀ (fs : List SrcFile) (start : List String) (symbol_name : String),
        (resolve_slice_dependencies fs start symbol_name).Nodup)
    ∧ resolve_slice_dependencies cycle_fs ["a.py"] "f" = [["a.py"], ["b.py"]] := by
  constructor
  · intro fs start symbol_name
    unfold resolve_slice_dependencies
    cases ht : readParse fs start with
    | none => simp
    | some tree =>
      dsimp only
      cases hf : findTopLevel tree symbol_name with
      | none => simp
      | some tgt =>
        dsimp only
        exact nodup_sliceBFS fs _ _ _ _ [start] (by simp)
  · rfl

/-- C7: Scenario A — `a.py` defines `def f(): return helper()` with
`from b import helper`, and `b.py` defines `def helper(): pass`; slicing
`a.py` for `f` returns exactly `{a.py, b.py}`. -/
theorem scenario_a_slice :
    resolve_slice_dependencies scenario_a_fs ["a.py"] "f" = [["a.py"], ["b.py"]] :=
  rfl

/-- C8: the `is_external` flag of an import record is a pure function of
the module string and the project module-name set; since the set's
membership only depends on which files were processed (not their order),
any reordering of the file list leaves every `is_external` value
unchanged. -/
theorem import_external_flag_pure (files₁ files₂ : List (List String))
    (h : files₁.Perm files₂) (nm : String) (asn : Option String) (line : Nat) :
    (visit_import_alias (build_project_modules files₁) nm asn line).is_external
      = (visit_import_alias (build_project_modules files₂) nm asn line).is_external := by
  have hmem : nm ∈ build_project_modules files₁ ↔ nm ∈ build_project_modules files₂ := by
    rw [mem_build_project_modules, mem_build_project_modules]
    constructor
    · rintro ⟨p, hp, hm⟩
      exact ⟨p, h.mem_iff.1 hp, hm⟩
    · rintro ⟨p, hp, hm⟩
      exact ⟨p, h.mem_iff.2 hp, hm⟩
  show decide (nm ∉ build_project_modules files₁) = decide (nm ∉ build_project_modules files₂)
  exact decide_eq_decide.mpr (not_congr hmem)

theorem import_external_flag_pure_witness :
    ([["pkg", "mod.py"], ["util.py"]].Perm [["util.py"], ["pkg", "mod.py"]])
    ∧ (visit_import_alias (build_project_modules [["pkg", "mod.py"], ["util.py"]])
        "pkg.mod" none 3).is_external
      = (visit_import_alias (build_project_modules [["util.py"], ["pkg", "mod.py"]])
        "pkg.mod" none 3).is_external :=
  ⟨by decide,
   import_external_flag_pure [["pkg", "mod.py"], ["util.py"]]
     [["util.py"], ["pkg", "mod.py"]] (by decide) "pkg.mod" none 3⟩

/-- C9: Scenario B — with the package-root marker file `pkg/__init__.py`
(the marker the source recognizes) and `pkg/mod.py`, the namespace builder
registers exactly the module names `pkg` and `pkg.mod` (the marker maps to
its parent directory's dotted path, and every ancestor prefix is added);
no class name such as `pkg.mod.Foo` is ever registered, since the builder
derives names from file paths alone. -/
theorem namespace_builder_scenario_b :
    build_project_modules [["pkg", "__init__.py"], ["pkg", "mod.py"]] = ["pkg", "pkg.mod"]
    ∧ "pkg.mod.Foo" ∉ build_project_modules [["pkg", "__init__.py"], ["pkg", "mod.py"]] :=
  ⟨rfl, by decide⟩

/-- C10: call resolution never produces a self-loop: the scan's
`if other_key == func_key: continue` makes a key unequal to the caller's a
precondition of every match, so no edge from a key to itself is recorded
and a function's own key is never appended to its caller list — even when
its body contains a call token equal to its own name. -/
theorem call_resolution_no_self_loop (functions : List (String × FunctionInfo))
    (k : String) :
    (k, k) ∉ buildCallGraph functions ∧ k ∉ calledBy functions k := by
  refine ⟨callGraph_no_self_edge functions k, ?_⟩
  intro hmem
  unfold calledBy at hmem
  rcases List.mem_map.1 hmem with ⟨e, he, heq⟩
  have hfil := List.mem_filter.1 he
  have h2 : e.2 = k := by simpa using hfil.2
  have hek : e = (k, k) := by
    cases e
    cases heq
    cases h2
    rfl
  exact callGraph_no_self_edge functions k (hek ▸ hfil.1)

end Gitex
